import Mathlib

/-!
Verification development for the SymbolConvert repository.

The Python sources (`utils.py`, `svg_functions.py`) are shallowly embedded
below: Python ints become `Nat`/`Int`, floats become `ℚ`, dictionaries with
insertion order become association lists, exceptions become `Option`, and
`svgelements` colors/points become plain records of channel values and
rational coordinates.
-/

namespace SymbolConvert

/-- An RGB color as stored by `svgelements.Color`: three channel values.
Embeds the colors handled by `index_to_color` / `color_to_index` in
`src/utils.py`. -/
structure RGB where
  red : Nat
  green : Nat
  blue : Nat
deriving DecidableEq, Repr

/-- `index_to_color` from `src/utils.py` (lines 41-44):
`r = index << 2`, green and blue are `0x99`. -/
def index_to_color (index : Nat) : RGB :=
  { red := index <<< 2, green := 0x99, blue := 0x99 }

/-- `color_to_index` from `src/utils.py` (lines 52-55): raises `ValueError`
(here `none`) when `color.red & 0x11 != 0` or `color.green != 0x99` or
`color.blue != 0x99`; otherwise returns `color.red >> 2`. -/
def color_to_index (color : RGB) : Option Nat :=
  if color.red &&& 0x11 ≠ 0 ∨ color.green ≠ 0x99 ∨ color.blue ≠ 0x99 then
    none
  else
    some (color.red >>> 2)

/-- A 2-D point with rational coordinates, embedding `svgelements.Point`. -/
structure SvgPoint where
  x : ℚ
  y : ℚ
deriving DecidableEq, Repr

/-- `are_two_points_close` from `src/utils.py` (lines 95-101), with the
source's default tolerance `eps = 1e-6`. -/
def are_two_points_close (pointA pointB : SvgPoint) (eps : ℚ := 1/1000000) : Bool :=
  decide (pointA.x ≥ pointB.x - eps) && decide (pointA.x ≤ pointB.x + eps) &&
  decide (pointA.y ≥ pointB.y - eps) && decide (pointA.y ≤ pointB.y + eps)

/-- A marker line as built by `svg_path_to_line`: start, end, stroke color. -/
structure MarkerLine where
  start : SvgPoint
  stop : SvgPoint
  color : RGB
deriving DecidableEq, Repr

/-- One step of the accumulation loop of `find_matching_line_point`
(`src/utils.py` lines 116-124): scan the insertion-ordered map for the first
representative close to `point`; increment it if found, otherwise append a
fresh entry with count 1. -/
def addPoint : List (SvgPoint × Nat) → SvgPoint → List (SvgPoint × Nat)
  | [], point => [(point, 1)]
  | entry :: rest, point =>
    if are_two_points_close entry.1 point then
      (entry.1, entry.2 + 1) :: rest
    else
      entry :: addPoint rest point

/-- The maximum-scan loop of `find_matching_line_point` (`src/utils.py`
lines 126-131): `point = None; max_count = 0`, updating on strictly greater
counts while walking the map in insertion order. -/
def selectGo : List (SvgPoint × Nat) → Option SvgPoint → Nat → Option SvgPoint
  | [], best, _ => best
  | entry :: rest, best, maxCount =>
    if maxCount < entry.2 then
      selectGo rest (some entry.1) entry.2
    else
      selectGo rest best maxCount

/-- `find_matching_line_point` from `src/utils.py` (lines 111-133): flatten
the start/end points of all lines, cluster them with `addPoint` starting from
a single-entry map holding the first point, and return the first strict
maximum. On an empty input, `points[0]` raises `IndexError` (`none` here). -/
def find_matching_line_point (lines : List MarkerLine) : Option SvgPoint :=
  let points := (lines.map (fun line => [line.start, line.stop])).flatten
  match points with
  | [] => none
  | point :: rest => selectGo (rest.foldl addPoint [(point, 1)]) none 0

/-- Modelled from the spec: closeness "within 1e-6 of it on the x and y axes
independently", written as the spec words it (`|Δx| ≤ ε ∧ |Δy| ≤ ε`). -/
def specClose (p q : SvgPoint) : Prop :=
  |p.x - q.x| ≤ 1/1000000 ∧ |p.y - q.y| ≤ 1/1000000

instance (p q : SvgPoint) : Decidable (specClose p q) := by
  unfold specClose; infer_instance

/-- Modelled from the spec: one insertion step of the Point Reconciler —
count the point into the first previously-inserted representative within
tolerance, else insert it as a new representative with count 1. -/
def specStep (acc : List (SvgPoint × Nat)) (p : SvgPoint) : List (SvgPoint × Nat) :=
  match acc.findIdx? (fun entry => decide (specClose entry.1 p)) with
  | some i => acc.modify (fun entry => (entry.1, entry.2 + 1)) i
  | none => acc ++ [(p, 1)]

/-- The largest occurrence count in an accumulated representative map. -/
def maxCount : List (SvgPoint × Nat) → Nat
  | [] => 0
  | entry :: rest => max entry.2 (maxCount rest)

/-- Modelled from the spec: the Point Reconciler — process all `2N` endpoints
in sequence order through `specStep` starting from an empty map, then return
the representative with the strictly greatest count, ties resolving to the
representative inserted first. -/
def specReferencePoint (lines : List MarkerLine) : Option SvgPoint :=
  let points := (lines.map (fun line => [line.start, line.stop])).flatten
  let acc := points.foldl specStep []
  (acc.find? (fun entry => decide (entry.2 = maxCount acc))).map Prod.fst

/-- A leaf option dict as it appears inside a selection; the embedding keeps
only its `name` (the claims never inspect the other keys). -/
structure OptionLeaf where
  name : String
deriving DecidableEq, Repr

/-- One entry of a component's `options` array: a dict containing an
`enumOptions` key (with an optional `selectNone` key, any truthy/falsy value
embedded as `Option Bool`), or any other dict, which
`options_object_to_array` treats as a boolean toggle. -/
inductive OptSpec where
  | enum (enumOptions : List OptionLeaf) (selectNone : Option Bool)
  | toggle (leaf : OptionLeaf)
deriving DecidableEq, Repr

/-- The Python value passed as the `options` argument of
`options_object_to_array`: either a list of option specs or any non-list
value (`None`, a dict, ...), the latter tagged with a description. -/
inductive PyOptions where
  | pyList (specs : List OptSpec)
  | notList (descr : String)
deriving DecidableEq, Repr

/-- `options_object_to_array` from `src/utils.py` (lines 64-92): a non-list
or empty argument yields `[[]]`; otherwise the head axis multiplies the
recursively converted tail — an enum contributes each leaf prepended to each
tail selection, plus the bare tail selections when `selectNone` is absent or
truthy; any other dict acts as a toggle contributing both the prepended and
the bare tail selections. -/
def options_object_to_array : PyOptions → List (List OptionLeaf)
  | .notList _ => [[]]
  | .pyList [] => [[]]
  | .pyList (current :: rest) =>
    let converted := options_object_to_array (.pyList rest)
    match current with
    | .enum enumOptions selectNone =>
      (enumOptions.flatMap fun o => converted.map fun r => o :: r) ++
        (if selectNone.getD true then converted else [])
    | .toggle leaf =>
      converted.flatMap fun r => [leaf :: r, r]
termination_by o => match o with
  | .pyList specs => specs.length
  | .notList _ => 0

/-- The per-axis selection multiplier stated by the spec: an enumeration
contributes its leaf count plus 1 when `selectNone` is true or absent, a
toggle contributes 2. -/
def axisMultiplier : OptSpec → Nat
  | .enum enumOptions selectNone =>
    enumOptions.length + (if selectNone.getD true then 1 else 0)
  | .toggle _ => 2

/-- Whether the Python argument is a list. -/
def isPyList : PyOptions → Bool
  | .pyList _ => true
  | .notList _ => false

lemma are_two_points_close_eq_specClose (a b : SvgPoint) :
    are_two_points_close a b = decide (specClose a b) := by
  rw [Bool.eq_iff_iff]
  simp only [are_two_points_close, specClose, Bool.and_eq_true, decide_eq_true_eq,
    abs_le, ge_iff_le]
  constructor
  · rintro ⟨⟨⟨h1, h2⟩, h3⟩, h4⟩
    exact ⟨⟨by linarith, by linarith⟩, by linarith, by linarith⟩
  · rintro ⟨⟨h1, h2⟩, h3, h4⟩
    exact ⟨⟨⟨by linarith, by linarith⟩, by linarith⟩, by linarith⟩

lemma specStep_eq_addPoint : specStep = addPoint := by
  funext acc p
  induction acc with
  | nil => simp [specStep, addPoint, List.findIdx?_nil]
  | cons e rest ih =>
    have hcl := are_two_points_close_eq_specClose e.1 p
    simp only [specStep, addPoint, List.findIdx?_cons, hcl]
    by_cases h : decide (specClose e.1 p) = true
    · rw [if_pos h, if_pos h]
      simp [List.modify_zero_cons]
    · rw [if_neg h, if_neg h, Nat.zero_add, List.findIdx?_succ, ← ih, specStep]
      cases hfind : List.findIdx? (fun entry => decide (specClose entry.1 p)) rest with
      | none => simp [hfind]
      | some i => simp [hfind, List.modify_succ_cons]

lemma mem_le_maxCount {acc : List (SvgPoint × Nat)} {e : SvgPoint × Nat} (h : e ∈ acc) :
    e.2 ≤ maxCount acc := by
  induction acc with
  | nil => cases h
  | cons a rest ih =>
    rw [maxCount]
    rcases List.mem_cons.mp h with rfl | h
    · exact Nat.le_max_left _ _
    · exact le_trans (ih h) (Nat.le_max_right _ _)

lemma maxCount_attained : ∀ (acc : List (SvgPoint × Nat)), acc ≠ [] →
    ∃ e ∈ acc, e.2 = maxCount acc := by
  intro acc
  induction acc with
  | nil => exact fun h => absurd rfl h
  | cons a rest ih =>
    intro _
    cases rest with
    | nil => exact ⟨a, by simp, by simp [maxCount]⟩
    | cons b tl =>
      obtain ⟨e, hmem, heq⟩ := ih (by simp)
      rcases Nat.le_total (maxCount (b :: tl)) a.2 with hc | hc
      · exact ⟨a, by simp, by rw [maxCount]; omega⟩
      · refine ⟨e, List.mem_cons_of_mem _ hmem, ?_⟩
        rw [maxCount]
        omega

lemma find?_congr_mem {α : Type} {l : List α} {p q : α → Bool}
    (h : ∀ x ∈ l, p x = q x) : l.find? p = l.find? q := by
  induction l with
  | nil => rfl
  | cons a rest ih =>
    rw [List.find?_cons, List.find?_cons, h a (List.mem_cons_self a rest)]
    cases q a with
    | true => rfl
    | false => exact ih fun x hx => h x (List.mem_cons_of_mem _ hx)

lemma selectGo_characterization (acc : List (SvgPoint × Nat)) :
    ∀ (b : Option SvgPoint) (m : Nat),
      selectGo acc b m =
        if maxCount acc ≤ m then b
        else (acc.find? (fun e => decide (m < e.2) && decide (maxCount acc ≤ e.2))).map
          Prod.fst := by
  induction acc with
  | nil => intro b m; simp [selectGo, maxCount]
  | cons e rest ih =>
    intro b m
    by_cases hm : m < e.2
    · rw [selectGo, if_pos hm, ih]
      by_cases hr : maxCount rest ≤ e.2
      · have hM : maxCount (e :: rest) = e.2 := by rw [maxCount]; omega
        rw [if_pos hr, hM, if_neg (by omega),
          List.find?_cons_of_pos _ (by rw [Bool.eq_iff_iff]; simp; omega)]
        rfl
      · have hM : maxCount (e :: rest) = maxCount rest := by rw [maxCount]; omega
        rw [if_neg hr, hM, if_neg (by omega),
          List.find?_cons_of_neg _ (by rw [Bool.eq_iff_iff]; simp; omega)]
        congr 1
        refine find?_congr_mem fun f _ => ?_
        rw [Bool.eq_iff_iff]
        simp only [Bool.and_eq_true, decide_eq_true_eq]
        omega
    · rw [selectGo, if_neg hm, ih]
      by_cases hr : maxCount rest ≤ m
      · rw [if_pos hr, if_pos (by rw [maxCount]; omega)]
      · have hM : maxCount (e :: rest) = maxCount rest := by rw [maxCount]; omega
        rw [if_neg hr, hM, if_neg hr,
          List.find?_cons_of_neg _ (by rw [Bool.eq_iff_iff]; simp; omega)]

lemma addPoint_counts (p : SvgPoint) :
    ∀ (acc : List (SvgPoint × Nat)), (∀ e ∈ acc, 1 ≤ e.2) →
      ∀ e ∈ addPoint acc p, 1 ≤ e.2 := by
  intro acc
  induction acc with
  | nil =>
    intro _ e he
    simp [addPoint] at he
    simp [he]
  | cons a rest ih =>
    intro h e he
    by_cases hc : are_two_points_close a.1 p
    · rw [addPoint, if_pos hc] at he
      rcases List.mem_cons.mp he with rfl | he
      · simp
      · exact h e (List.mem_cons_of_mem _ he)
    · rw [addPoint, if_neg hc] at he
      rcases List.mem_cons.mp he with rfl | he
      · exact h e (List.mem_cons_self _ _)
      · exact ih (fun f hf => h f (List.mem_cons_of_mem _ hf)) e he

lemma foldl_addPoint_counts (pts : List SvgPoint) :
    ∀ (acc : List (SvgPoint × Nat)), (∀ e ∈ acc, 1 ≤ e.2) →
      ∀ e ∈ pts.foldl addPoint acc, 1 ≤ e.2 := by
  induction pts with
  | nil => intro acc h; exact h
  | cons p rest ih => intro acc h; exact ih (addPoint acc p) (addPoint_counts p acc h)

lemma addPoint_ne_nil (acc : List (SvgPoint × Nat)) (p : SvgPoint) :
    addPoint acc p ≠ [] := by
  cases acc with
  | nil => simp [addPoint]
  | cons a rest => rw [addPoint]; split <;> simp

lemma foldl_addPoint_ne_nil (pts : List SvgPoint) :
    ∀ (acc : List (SvgPoint × Nat)), acc ≠ [] → pts.foldl addPoint acc ≠ [] := by
  induction pts with
  | nil => intro acc h; exact h
  | cons p rest ih => intro acc _; exact ih (addPoint acc p) (addPoint_ne_nil acc p)

/-! Naming: `component_name_from_info` and `parse_filename` from
`src/utils.py`. Python strings are embedded as `List Char`. -/

/-- The character list of the literal `"node"`. -/
def nodeChars : List Char := ['n', 'o', 'd', 'e']

/-- The character list of the literal `"path"`. -/
def pathChars : List Char := ['p', 'a', 't', 'h']

/-- The decimal digit character for `d < 10`. -/
def digitChar (d : Nat) : Char := Char.ofNat (48 + d)

/-- The decimal representation of a natural number, as Python's `str`/format
would print it (most significant digit first, no sign, no padding). -/
def natRepr (n : Nat) : List Char :=
  if _h : n < 10 then [digitChar n]
  else natRepr (n / 10) ++ [digitChar (n % 10)]
decreasing_by exact Nat.div_lt_self (by omega) (by omega)

/-- Python's `f"{n:03d}"` for a natural number: the decimal representation
left-padded with zeros to width 3. -/
def pad3 (n : Nat) : List Char :=
  List.replicate (3 - (natRepr n).length) '0' ++ natRepr n

/-- A regex word character (`\w`): ASCII letter, digit or underscore, the
characters `re.sub(r"\W", "-", part)` leaves in place. -/
def isWordChar (c : Char) : Bool := c.isAlphanum || c = '_'

/-- `re.sub(r"\W", "-", part)`: every non-word character becomes a dash. -/
def sanitize (part : List Char) : List Char :=
  part.map fun c => if isWordChar c then c else '-'

/-- Python's `sep.join(parts)`. -/
def joinSep (sep : Char) : List (List Char) → List Char
  | [] => []
  | [a] => a
  | a :: rest => a ++ sep :: joinSep sep rest

/-- Python's `s.split(sep)` for a single-character separator. -/
def splitSep (sep : Char) : List Char → List (List Char)
  | [] => [[]]
  | c :: rest =>
    if c = sep then [] :: splitSep sep rest
    else
      match splitSep sep rest with
      | [] => [[c]]
      | p :: ps => (c :: p) :: ps

/-- The numeric value of a digit character. -/
def charVal (c : Char) : Nat := c.toNat - 48

/-- The value Python's `int` computes from a digit string. -/
def parseNatDigits (l : List Char) : Nat :=
  l.foldl (fun a c => 10 * a + charVal c) 0

/-- Python's `int(s)` on the strings arising here: succeeds exactly on
non-empty all-digit strings, otherwise raises `ValueError` (`none`). -/
def parseNatOfChars (l : List Char) : Option Nat :=
  if l ≠ [] ∧ l.all Char.isDigit then some (parseNatDigits l) else none

/-- `component_name_from_info` from `src/utils.py` (lines 21-29): build
`["node"/"path"] (+ [f"{index:03d}"] if index is not None) + [id]
(+ ["-".join(options)] if options non-empty)`, replace non-word characters
by dashes in every part, and join the parts with underscores. -/
def component_name_from_info (index : Option Nat) (id : List Char)
    (isnode : Bool) (options : List (List Char)) : List Char :=
  let basenameArray :=
    [if isnode then nodeChars else pathChars] ++
      (match index with | some i => [pad3 i] | none => []) ++
      [id] ++
      (if 0 < options.length then [joinSep '-' options] else [])
  joinSep '_' (basenameArray.map sanitize)

/-- `parse_filename` from `src/utils.py` (lines 36-38): split on `_`, read
`int(parts[1])` and compare `parts[0]` with `"node"`; missing parts raise
`IndexError` and non-numeric parts raise `ValueError` (`none` here). -/
def parse_filename (filename : List Char) : Option (Nat × Bool) :=
  match splitSep '_' filename with
  | p0 :: p1 :: _ => (parseNatOfChars p1).map fun n => (n, p0 == nodeChars)
  | _ => none

lemma digitChar_isDigit {d : Nat} (h : d < 10) : (digitChar d).isDigit = true := by
  interval_cases d <;> decide

lemma charVal_digitChar {d : Nat} (h : d < 10) : charVal (digitChar d) = d := by
  interval_cases d <;> decide

lemma natRepr_digits (n : Nat) : (natRepr n).all Char.isDigit = true := by
  induction n using Nat.strong_induction_on with
  | _ n ih =>
    rw [natRepr]
    by_cases h : n < 10
    · rw [dif_pos h]
      simp [digitChar_isDigit h]
    · rw [dif_neg h, List.all_append]
      rw [Bool.and_eq_true]
      refine ⟨ih (n / 10) (Nat.div_lt_self (by omega) (by omega)), ?_⟩
      simp [digitChar_isDigit (Nat.mod_lt n (by omega))]

lemma natRepr_ne_nil (n : Nat) : natRepr n ≠ [] := by
  rw [natRepr]
  by_cases h : n < 10
  · rw [dif_pos h]; simp
  · rw [dif_neg h]; simp

lemma parse_foldl_natRepr (n : Nat) :
    ∀ a : Nat, (natRepr n).foldl (fun a c => 10 * a + charVal c) a
      = a * 10 ^ (natRepr n).length + n := by
  induction n using Nat.strong_induction_on with
  | _ n ih =>
    intro a
    rw [natRepr]
    by_cases h : n < 10
    · rw [dif_pos h]
      simp only [List.foldl_cons, List.foldl_nil, List.length_cons, List.length_nil,
        charVal_digitChar h, pow_one, Nat.zero_add]
      ring
    · rw [dif_neg h, List.foldl_append,
        ih (n / 10) (Nat.div_lt_self (by omega) (by omega)) a]
      simp only [List.foldl_cons, List.foldl_nil, List.length_append, List.length_cons,
        List.length_nil, charVal_digitChar (Nat.mod_lt n (by omega))]
      calc 10 * ((a * 10 ^ (natRepr (n / 10)).length + n / 10)) + n % 10
          = a * 10 ^ (natRepr (n / 10)).length * 10 + (10 * (n / 10) + n % 10) := by ring
        _ = a * 10 ^ ((natRepr (n / 10)).length + 1) + n := by
            rw [Nat.div_add_mod, pow_succ, Nat.mul_assoc]

lemma foldl_replicate_zero (k : Nat) :
    (List.replicate k '0').foldl (fun a c => 10 * a + charVal c) 0 = 0 := by
  induction k with
  | zero => rfl
  | succ k ih =>
    rw [List.replicate_succ, List.foldl_cons]
    have hz : (10 * 0 + charVal '0') = 0 := by decide
    rw [hz, ih]

lemma pad3_digits (n : Nat) : (pad3 n).all Char.isDigit = true := by
  rw [pad3, List.all_append]
  rw [Bool.and_eq_true]
  refine ⟨?_, natRepr_digits n⟩
  rw [List.all_eq_true]
  intro c hc
  rw [List.eq_of_mem_replicate hc]
  decide

lemma word_of_digit {c : Char} (h : c.isDigit = true) : isWordChar c = true := by
  rw [isWordChar, Char.isAlphanum, h]
  simp

lemma pad3_ne_nil (n : Nat) : pad3 n ≠ [] := by
  rw [pad3]
  intro h
  exact natRepr_ne_nil n (List.append_eq_nil.mp h).2

lemma pad3_no_underscore (n : Nat) : '_' ∉ pad3 n := by
  intro hmem
  exact absurd (List.all_eq_true.mp (pad3_digits n) _ hmem) (by decide)

lemma sanitize_of_word {l : List Char} (h : ∀ c ∈ l, isWordChar c = true) :
    sanitize l = l := by
  rw [sanitize]
  have : List.map (fun c => if isWordChar c then c else '-') l = List.map id l :=
    List.map_congr_left fun c hc => by rw [if_pos (h c hc)]; rfl
  rw [this, List.map_id]

lemma sanitize_pad3 (n : Nat) : sanitize (pad3 n) = pad3 n :=
  sanitize_of_word fun c hc =>
    word_of_digit (List.all_eq_true.mp (pad3_digits n) c hc)

lemma parseNatOfChars_pad3 (n : Nat) : parseNatOfChars (pad3 n) = some n := by
  rw [parseNatOfChars, if_pos ⟨pad3_ne_nil n, pad3_digits n⟩]
  congr 1
  rw [parseNatDigits, pad3, List.foldl_append, foldl_replicate_zero, parse_foldl_natRepr]
  simp

/-! Variant extraction: the pin-line orientation step and the default-anchor
marking loop of `_convert_SVG_to_symbol_worker` in `src/svg_functions.py`. -/

/-- The pin-line orientation step (`src/svg_functions.py` lines 151-160): if
the line's start is not close to the reference point, swap when the end is
close (the new end is the old start, the new start the reference point);
otherwise print an orientation error and set `errorcode = 1`, leaving the
line unchanged. Returns the possibly reoriented line and whether the error
was recorded. -/
def orientPinLine (ref : SvgPoint) (line : MarkerLine) : MarkerLine × Bool :=
  if ¬ are_two_points_close line.start ref then
    if are_two_points_close line.stop ref then
      ({ line with start := ref, stop := line.start }, false)
    else
      (line, true)
  else
    (line, false)

/-- The `Pin_Anchor` dataclass of `src/svg_functions.py`: anchor name,
offset point (`None` until a line assigns it), default flag. -/
structure PinAnchor where
  anchor_name : String
  point : Option SvgPoint
  dflt : Bool
deriving DecidableEq, Repr

/-- The default-marking loop (`src/svg_functions.py` lines 174-180) with its
running `has_default` flag: unassigned points become `Point(0, 0)`, and the
first anchor whose point is close to `zero_coordinate` (while the flag is
still unset) gets `default = True`. -/
def markDefaultsGo (hasDefault : Bool) : List PinAnchor → List PinAnchor
  | [] => []
  | a :: rest =>
    let p := a.point.getD ⟨0, 0⟩
    let isDef := !hasDefault && are_two_points_close ⟨0, 0⟩ p
    { a with point := some p, dflt := isDef || a.dflt } ::
      markDefaultsGo (hasDefault || isDef) rest

/-- The default-marking loop, entered with `has_default = False`. -/
def markDefaults (anchors : List PinAnchor) : List PinAnchor :=
  markDefaultsGo false anchors

/-- Whether an anchor's offset (after `None` is replaced by the origin) is
within tolerance of `(0, 0)`. -/
def isOriginAnchor (a : PinAnchor) : Bool :=
  are_two_points_close ⟨0, 0⟩ (a.point.getD ⟨0, 0⟩)

/-- Modelled from the spec: the expected default flags — exactly the first
anchor satisfying `pred` is marked, none when no anchor satisfies it. -/
def firstTrueMask (pred : PinAnchor → Bool) : List PinAnchor → List Bool
  | [] => []
  | a :: rest =>
    if pred a then true :: List.replicate rest.length false
    else false :: firstTrueMask pred rest

lemma markDefaultsGo_true_defaults {l : List PinAnchor}
    (h : ∀ a ∈ l, a.dflt = false) :
    (markDefaultsGo true l).map (fun a => a.dflt) = List.replicate l.length false := by
  induction l with
  | nil => rfl
  | cons a rest ih =>
    rw [markDefaultsGo]
    simp only [List.map_cons, Bool.not_true, Bool.false_and, Bool.false_or,
      Bool.true_or, List.length_cons, List.replicate_succ]
    rw [h a (List.mem_cons_self _ _)]
    rw [ih fun f hf => h f (List.mem_cons_of_mem _ hf)]

lemma firstTrueMask_count_le_one (pred : PinAnchor → Bool) (l : List PinAnchor) :
    (firstTrueMask pred l).count true ≤ 1 := by
  induction l with
  | nil => simp [firstTrueMask]
  | cons a rest ih =>
    rw [firstTrueMask]
    by_cases hp : pred a
    · rw [if_pos hp, List.count_cons, List.count_replicate]
      simp
    · rw [if_neg hp, List.count_cons]
      simp only [beq_iff_eq, Bool.false_eq_true, if_false]
      omega

/-! Library assembly: `combine_SVGs_to_symbol` from `src/svg_functions.py`
(lines 409-492). A `<symbol>` produced by extraction is embedded as a
`Fragment` holding exactly the data the assembler reads back out of it. -/

/-- One `option` element of a symbol's options block: `name` attribute,
optional `display` attribute, presence of the `active` attribute. -/
structure OptionElem where
  name : String
  display : Option String
  active : Bool
deriving DecidableEq, Repr

/-- One `<symbol>` fragment as `combine_SVGs_to_symbol` reads it: the id,
the `componentInformation` attributes (`type`, `display`, `tikz`, `group`,
`shape`, `refX`, `refY`, `viewBox`), the option elements, and the pin /
`textpos` elements. Pins and text positions are copied verbatim into the
variant, so they are embedded as opaque payload strings. -/
structure Fragment where
  id : String
  typ : String
  display : String
  tikz : String
  group : String
  shape : String
  refX : ℚ
  refY : ℚ
  viewBox : String
  optionsBlock : List OptionElem
  pins : List String
  textpos : Option String
deriving DecidableEq, Repr

/-- One `variant` element of the combined document. -/
structure Variant where
  x : Option ℚ
  y : Option ℚ
  viewBox : String
  forId : String
  activeOptions : List OptionElem
  pins : List String
  textpos : Option String
deriving DecidableEq, Repr

/-- One `component` element of the combined document. -/
structure Component where
  typ : String
  display : String
  tikz : String
  group : String
  shape : Option String
  optionsBlock : Option (List OptionElem)
  variants : List Variant
deriving DecidableEq, Repr

/-- The variant built from one symbol (`src/svg_functions.py` lines
456-484): `x`/`y` only when the parsed `refX`/`refY` is non-zero, the
symbol's id as `for`, the option elements carrying an `active` attribute
with `active` and `display` stripped, and the pins and text position copied
over. -/
def variantOf (f : Fragment) : Variant :=
  { x := if f.refX ≠ 0 then some f.refX else none,
    y := if f.refY ≠ 0 then some f.refY else none,
    viewBox := f.viewBox,
    forId := f.id,
    activeOptions := (f.optionsBlock.filter fun o => o.active).map
      fun o => { name := o.name, display := none, active := false },
    pins := f.pins,
    textpos := f.textpos }

/-- The component record built from one cluster (`src/svg_functions.py`
lines 436-446 and 456-484): shared attributes from the first symbol (`shape`
only for path components, the options block cloned from the first symbol
when it exists and has children — an absent options element and an empty one
are both embedded as `[]`), and one variant per clustered symbol in order. -/
def mkComponent : List Fragment → Option Component
  | [] => none
  | first :: rest =>
    some { typ := first.typ, display := first.display, tikz := first.tikz,
           group := first.group,
           shape := if first.typ = "path" then some first.shape else none,
           optionsBlock :=
             if first.optionsBlock ≠ [] then some first.optionsBlock else none,
           variants := (first :: rest).map variantOf }

/-- One step of the clustering loop (`src/svg_functions.py` lines 426-432):
append the symbol to its `tikz` key's group when the key is already present
in the insertion-ordered dict, else add a new single-element group. -/
def addToCluster : List (String × List Fragment) → Fragment → List (String × List Fragment)
  | [], f => [(f.tikz, [f])]
  | (k, g) :: rest, f =>
    if k = f.tikz then (k, g ++ [f]) :: rest
    else (k, g) :: addToCluster rest f

/-- The `clusteredSymbols` dict after the clustering loop. -/
def clusterByTikz (frags : List Fragment) : List (String × List Fragment) :=
  frags.foldl addToCluster []

/-- `combine_SVGs_to_symbol`: cluster the symbols by their `tikz` attribute
and emit one component per cluster. -/
def combine_SVGs_to_symbol (frags : List Fragment) : List Component :=
  (clusterByTikz frags).filterMap fun g => mkComponent g.2

/-- Modelled from the spec: the component identities in first-seen order. -/
def firstSeenKeys (frags : List Fragment) : List String :=
  frags.foldl (fun ks f => if f.tikz ∈ ks then ks else ks ++ [f.tikz]) []

lemma firstSeenKeys_append_one (l : List Fragment) (f : Fragment) :
    firstSeenKeys (l ++ [f])
      = if f.tikz ∈ firstSeenKeys l then firstSeenKeys l
        else firstSeenKeys l ++ [f.tikz] := by
  rw [firstSeenKeys, List.foldl_append, List.foldl_cons, List.foldl_nil]
  rfl

lemma tikz_mem_firstSeenKeys {l : List Fragment} {x : Fragment} (hx : x ∈ l) :
    x.tikz ∈ firstSeenKeys l := by
  induction l using List.reverseRecOn with
  | nil => cases hx
  | append_singleton l f ih =>
    rw [firstSeenKeys_append_one]
    rcases List.mem_append.mp hx with hx | hx
    · by_cases hmem : f.tikz ∈ firstSeenKeys l
      · rw [if_pos hmem]; exact ih hx
      · rw [if_neg hmem]; exact List.mem_append_left _ (ih hx)
    · rw [List.mem_singleton.mp hx]
      by_cases hmem : f.tikz ∈ firstSeenKeys l
      · rw [if_pos hmem]; exact hmem
      · rw [if_neg hmem]; exact List.mem_append_right _ (List.mem_singleton.mpr rfl)

lemma not_tikz_of_not_mem_firstSeenKeys {l : List Fragment} {k : String}
    (hk : k ∉ firstSeenKeys l) : ∀ x ∈ l, ¬ x.tikz = k := by
  intro x hx heq
  exact hk (heq ▸ tikz_mem_firstSeenKeys hx)

lemma firstSeenKeys_nodup (l : List Fragment) : (firstSeenKeys l).Nodup := by
  induction l using List.reverseRecOn with
  | nil => exact List.nodup_nil
  | append_singleton l f ih =>
    rw [firstSeenKeys_append_one]
    by_cases hmem : f.tikz ∈ firstSeenKeys l
    · rw [if_pos hmem]; exact ih
    · rw [if_neg hmem]
      rw [← List.concat_eq_append]
      exact List.Nodup.concat hmem ih

lemma addToCluster_of_not_mem (f : Fragment) :
    ∀ (ks : List String) (F : String → List Fragment), f.tikz ∉ ks →
      addToCluster (ks.map fun k => (k, F k)) f
        = (ks.map fun k => (k, F k)) ++ [(f.tikz, [f])] := by
  intro ks
  induction ks with
  | nil => intro F _; rfl
  | cons k ks ih =>
    intro F hmem
    rw [List.map_cons, addToCluster,
      if_neg (fun heq => hmem (by rw [← heq]; exact List.mem_cons_self _ _)),
      ih F (fun h => hmem (List.mem_cons_of_mem _ h)), List.cons_append]

lemma addToCluster_of_mem (f : Fragment) :
    ∀ (ks : List String) (F : String → List Fragment), ks.Nodup → f.tikz ∈ ks →
      addToCluster (ks.map fun k => (k, F k)) f
        = ks.map fun k => (k, F k ++ if f.tikz = k then [f] else []) := by
  intro ks
  induction ks with
  | nil => intro F _ hmem; cases hmem
  | cons k ks ih =>
    intro F hnd hmem
    rw [List.map_cons, List.map_cons, addToCluster]
    by_cases hk : k = f.tikz
    · rw [if_pos hk, if_pos hk.symm]
      congr 1
      refine (List.map_congr_left fun j hj => ?_).symm
      have hne : ¬ f.tikz = j := fun heq =>
        (List.nodup_cons.mp hnd).1 (by rw [hk, heq]; exact hj)
      rw [if_neg hne, List.append_nil]
    · rw [if_neg hk, if_neg (fun heq => hk heq.symm), List.append_nil,
        ih F (List.nodup_cons.mp hnd).2
          (by rcases List.mem_cons.mp hmem with heq | hm
              · exact absurd heq.symm hk
              · exact hm)]

lemma clusterByTikz_spec (frags : List Fragment) :
    clusterByTikz frags
      = (firstSeenKeys frags).map
          fun k => (k, frags.filter fun f => f.tikz = k) := by
  induction frags using List.reverseRecOn with
  | nil => rfl
  | append_singleton l f ih =>
    rw [clusterByTikz, List.foldl_append, List.foldl_cons, List.foldl_nil]
    rw [show List.foldl addToCluster [] l = clusterByTikz l from rfl, ih,
      firstSeenKeys_append_one]
    by_cases hmem : f.tikz ∈ firstSeenKeys l
    · rw [if_pos hmem,
        addToCluster_of_mem f _ _ (firstSeenKeys_nodup l) hmem]
      refine List.map_congr_left fun k hk => ?_
      rw [List.filter_append, List.filter_singleton]
      congr 1
      by_cases hfk : f.tikz = k
      · rw [if_pos hfk, show decide (f.tikz = k) = true from decide_eq_true hfk]
        rfl
      · rw [if_neg hfk, show decide (f.tikz = k) = false from decide_eq_false hfk]
        rfl
    · rw [if_neg hmem, addToCluster_of_not_mem f _ _ hmem, List.map_append]
      congr 1
      · refine List.map_congr_left fun k hk => ?_
        rw [List.filter_append, List.filter_singleton]
        have hfk : ¬ f.tikz = k := fun heq => hmem (heq ▸ hk)
        rw [show decide (f.tikz = k) = false from decide_eq_false hfk,
          Bool.cond_false, List.append_nil]
      · rw [List.map_singleton]
        congr 1
        rw [List.filter_append, List.filter_singleton,
          show decide (f.tikz = f.tikz) = true from decide_eq_true rfl,
          List.filter_eq_nil_iff.mpr
            (by intro a ha
                simp only [decide_eq_true_eq]
                exact not_tikz_of_not_mem_firstSeenKeys hmem a ha)]
        rfl

lemma splitSep_append_cons (sep : Char) :
    ∀ (a r : List Char), sep ∉ a → splitSep sep (a ++ sep :: r) = a :: splitSep sep r := by
  intro a
  induction a with
  | nil =>
    intro r _
    rw [List.nil_append, splitSep, if_pos rfl]
  | cons c tl ih =>
    intro r hmem
    have hc : ¬ c = sep := by
      intro h
      exact hmem (by rw [← h]; exact List.mem_cons_self _ _)
    rw [List.cons_append, splitSep, if_neg hc,
      ih r (fun hm => hmem (List.mem_cons_of_mem _ hm))]

end SymbolConvert

namespace SymbolConvert

/-- C1: the claim asserts `color_to_index (index_to_color i) = some i` for all
`i ∈ [0, 63]`; the code violates this at `i = 4` (red `= 16`, and
`16 &&& 0x11 = 16 ≠ 0`), contradicting the source's own doc comments
(`index in [0, 63]`, example `(252, 153, 153) -> 63`). This theorem records
the code's actual behavior at the failing input: the round trip raises. -/
theorem color_codec_roundtrip_fails_at_four :
    color_to_index (index_to_color 4) = none ∧ index_to_color 4 = ⟨16, 153, 153⟩ := by
  constructor <;> decide

/-- C2: the claim asserts `color_to_index` raises exactly when green ≠ 153,
blue ≠ 153 or red mod 4 ≠ 0, and otherwise returns red / 4. The code instead
tests `red & 0x11`: it raises on `(252, 153, 153)` (its own docstring example,
252 being a multiple of 4) and accepts `(2, 153, 153)` (2 not being a multiple
of 4), returning `some 0`. This theorem records both divergences of the code
from the claimed mod-4 criterion. -/
theorem color_to_index_mask_not_mod_four :
    color_to_index ⟨252, 153, 153⟩ = none ∧ 252 % 4 = 0 ∧
    color_to_index ⟨2, 153, 153⟩ = some 0 ∧ 2 % 4 ≠ 0 := by
  refine ⟨by decide, by decide, by decide, by decide⟩

/-- C3: on every non-empty list of marker lines, `find_matching_line_point`
agrees with the Point Reconciler as the spec words it (process the 2N
endpoints in order, counting each into the first previously-inserted
representative within 1e-6 on both axes independently, else inserting it with
count 1; return the representative with the strictly greatest count, ties to
the representative inserted first), and it does return a representative. -/
theorem find_matching_line_point_meets_spec (lines : List MarkerLine)
    (h : lines ≠ []) :
    find_matching_line_point lines = specReferencePoint lines ∧
      (specReferencePoint lines).isSome := by
  obtain ⟨l, ls, rfl⟩ : ∃ l ls, lines = l :: ls := by
    cases lines with
    | nil => exact absurd rfl h
    | cons l ls => exact ⟨l, ls, rfl⟩
  rw [find_matching_line_point, specReferencePoint]
  simp only [List.map_cons, List.flatten_cons, List.cons_append, List.nil_append,
    List.foldl_cons, specStep_eq_addPoint]
  have h0 : addPoint [] l.start = [(l.start, 1)] := rfl
  rw [h0]
  generalize (ls.map fun line => [line.start, line.stop]).flatten = pts
  set A := pts.foldl addPoint (addPoint [(l.start, 1)] l.stop) with hA
  have hcounts : ∀ e ∈ A, 1 ≤ e.2 := by
    rw [hA]
    refine foldl_addPoint_counts pts _ ?_
    intro e he
    have h1 : ∀ f ∈ [(l.start, 1)], 1 ≤ f.2 := by intro f hf; simp at hf; simp [hf]
    exact addPoint_counts l.stop _ h1 e he
  have hne : A ≠ [] := by
    rw [hA]
    exact foldl_addPoint_ne_nil pts _ (addPoint_ne_nil _ _)
  obtain ⟨w, hwmem, hweq⟩ := maxCount_attained A hne
  have hmax1 : 1 ≤ maxCount A := hweq ▸ hcounts w hwmem
  constructor
  · rw [selectGo_characterization, if_neg (by omega)]
    congr 1
    refine find?_congr_mem fun f hf => ?_
    have hf2 := hcounts f hf
    have hfle := mem_le_maxCount hf
    rw [Bool.eq_iff_iff]
    simp only [Bool.and_eq_true, decide_eq_true_eq]
    omega
  · rw [Option.isSome_map']
    rw [List.find?_isSome]
    exact ⟨w, hwmem, by simp [hweq]⟩

/-- The spec's Reconciler-determinism example: three marker lines all
starting at the origin. -/
def reconcilerExample : List MarkerLine :=
  [⟨⟨0, 0⟩, ⟨5, 0⟩, ⟨255, 0, 0⟩⟩,
   ⟨⟨0, 0⟩, ⟨0, 5⟩, ⟨0, 0, 255⟩⟩,
   ⟨⟨0, 0⟩, ⟨-5, 0⟩, ⟨0, 255, 0⟩⟩]

/-- C3 witness: the theorem instantiated at the spec's three-line example. -/
theorem find_matching_line_point_meets_spec_witness :
    reconcilerExample ≠ [] ∧
      (find_matching_line_point reconcilerExample = specReferencePoint reconcilerExample ∧
        (specReferencePoint reconcilerExample).isSome) :=
  ⟨List.cons_ne_nil _ _,
    find_matching_line_point_meets_spec reconcilerExample (List.cons_ne_nil _ _)⟩

/-- C9: `find_matching_line_point` fails on an empty list of lines — the
source raises `IndexError` at `points[0]`, embedded here as `none`. -/
theorem find_matching_line_point_empty_fails :
    find_matching_line_point [] = none := rfl

/-- C4: the number of selections returned by `options_object_to_array` is the
product of the per-axis multipliers (an enumeration contributes its leaf
count plus 1 when `selectNone` is true or absent, a toggle contributes 2),
and the empty spec list yields exactly the single empty selection. -/
theorem options_object_to_array_cardinality (specs : List OptSpec) :
    (options_object_to_array (.pyList specs)).length = (specs.map axisMultiplier).prod ∧
      options_object_to_array (.pyList []) = [[]] := by
  refine ⟨?_, by simp [options_object_to_array]⟩
  induction specs with
  | nil => simp [options_object_to_array]
  | cons current rest ih =>
    rw [options_object_to_array.eq_def]
    cases current with
    | enum opts sn =>
      simp only [List.map_cons, List.prod_cons, axisMultiplier, List.length_append,
        List.length_flatMap, Function.comp_def, List.length_map]
      rw [List.map_const', List.sum_replicate, smul_eq_mul, ih]
      by_cases hs : sn.getD true
      · rw [if_pos hs, if_pos hs, ih]
        ring
      · rw [if_neg hs, if_neg hs]
        simp
    | toggle leaf =>
      simp only [List.map_cons, List.prod_cons, axisMultiplier, List.length_flatMap,
        Function.comp_def, List.length_cons]
      rw [List.map_const', List.sum_replicate, smul_eq_mul, ih]
      simp [Nat.mul_comm]

/-- C10: `options_object_to_array` maps every non-list argument, and the
empty list, to the single empty selection `[[]]` without raising. -/
theorem options_object_to_array_non_list (o : PyOptions)
    (h : isPyList o = false ∨ o = .pyList []) :
    options_object_to_array o = [[]] := by
  cases o with
  | notList d => simp [options_object_to_array]
  | pyList specs =>
    rcases h with h | h
    · simp [isPyList] at h
    · rw [h]
      simp [options_object_to_array]

/-- C10 witness: the theorem applied at the concrete non-list input `None`. -/
theorem options_object_to_array_non_list_witness :
    isPyList (.notList "None") = false ∧
      options_object_to_array (.notList "None") = [[]] :=
  ⟨rfl, options_object_to_array_non_list (.notList "None") (Or.inl rfl)⟩

/-- C5: for every index, identity string, kind flag and option-name list,
parsing the generated component name recovers the index and the kind:
`parse_filename (component_name_from_info index id isnode options)
  = (index, isnode)`; the instance at `(3, "foo bar", True, ["x=1"])` is the
special case `index := 3`, `id := "foo bar".data`, `options := ["x=1".data]`. -/
theorem parse_filename_roundtrip (index : Nat) (id : List Char)
    (isnode : Bool) (options : List (List Char)) :
    parse_filename (component_name_from_info (some index) id isnode options)
      = some (index, isnode) := by
  rw [component_name_from_info]
  simp only [List.cons_append, List.nil_append, List.singleton_append, List.map_cons]
  cases isnode with
  | true =>
    simp only [if_true, sanitize_pad3]
    have hk : sanitize nodeChars = nodeChars := by decide
    rw [hk]
    simp only [joinSep]
    rw [parse_filename,
      splitSep_append_cons '_' nodeChars _ (by decide),
      splitSep_append_cons '_' (pad3 index) _ (pad3_no_underscore index)]
    simp [parseNatOfChars_pad3, nodeChars]
  | false =>
    simp only [Bool.false_eq_true, if_false, sanitize_pad3]
    have hk : sanitize pathChars = pathChars := by decide
    rw [hk]
    simp only [joinSep]
    rw [parse_filename,
      splitSep_append_cons '_' pathChars _ (by decide),
      splitSep_append_cons '_' (pad3 index) _ (pad3_no_underscore index)]
    simp [parseNatOfChars_pad3, pathChars, nodeChars]

/-- C8 (counterexample): the claim asserts that an orientation error is also
recorded when neither endpoint qualifies as the far endpoint, i.e. when both
endpoints are within tolerance of the reference point. For the degenerate
line whose endpoints both sit on the reference point, both endpoints are
within tolerance, yet the code records no error (the `errorcode = 1` branch
is never reached because the start is close). -/
theorem orientPinLine_no_error_when_both_close :
    are_two_points_close ⟨0, 0⟩ ⟨0, 0⟩ = true ∧
      (orientPinLine ⟨0, 0⟩ ⟨⟨0, 0⟩, ⟨0, 0⟩, ⟨0, 153, 153⟩⟩).2 = false := by
  have hclose : are_two_points_close (⟨0, 0⟩ : SvgPoint) ⟨0, 0⟩ = true := by
    simp only [are_two_points_close, Bool.and_eq_true, decide_eq_true_eq, ge_iff_le]
    norm_num
  exact ⟨hclose, by rw [orientPinLine, if_neg (not_not_intro hclose)]⟩

/-- C8 (amended): the orientation step records the non-fatal error exactly
when neither endpoint is within tolerance of the reference point (both
qualify as far), in which case the line is left unchanged so its original end
serves as the far endpoint; the far endpoint is otherwise the original end,
except in the swap case (start far, end close) where it is the original
start. In particular, when both endpoints are within tolerance no error is
recorded. -/
theorem orientPinLine_error_characterization (ref : SvgPoint) (line : MarkerLine) :
    (orientPinLine ref line).2
        = (!are_two_points_close line.start ref && !are_two_points_close line.stop ref) ∧
      (orientPinLine ref line).1.stop
        = (if (!are_two_points_close line.start ref && are_two_points_close line.stop ref)
           then line.start else line.stop) := by
  rw [orientPinLine]
  by_cases h1 : are_two_points_close line.start ref
  · rw [if_neg (not_not_intro h1), h1]
    refine ⟨by rw [Bool.not_true, Bool.false_and], ?_⟩
    rw [Bool.not_true, Bool.false_and, if_neg Bool.false_ne_true]
  · rw [Bool.not_eq_true] at h1
    have h1' : ¬ are_two_points_close line.start ref = true := by
      rw [h1]; exact Bool.false_ne_true
    rw [if_pos h1', h1]
    by_cases h2 : are_two_points_close line.stop ref
    · rw [if_pos h2, h2]
      refine ⟨by rw [Bool.not_false, Bool.not_true, Bool.true_and], ?_⟩
      rw [Bool.not_false, Bool.true_and, if_pos rfl]
    · rw [Bool.not_eq_true] at h2
      have h2' : ¬ are_two_points_close line.stop ref = true := by
        rw [h2]; exact Bool.false_ne_true
      rw [if_neg h2', h2]
      refine ⟨by rw [Bool.not_false, Bool.true_and], ?_⟩
      rw [Bool.not_false, Bool.true_and, if_neg Bool.false_ne_true]

/-- C6: after the default-marking loop runs over anchors none of which is yet
marked, the default flags are exactly the first-origin mask — the first
anchor in final list order whose offset is within tolerance of `(0, 0)` is
marked, every other anchor is not, and no anchor is marked when none is at
the origin — so at most one anchor carries the default flag. -/
theorem markDefaults_marks_first_origin (anchors : List PinAnchor)
    (h : ∀ a ∈ anchors, a.dflt = false) :
    (markDefaults anchors).map (fun a => a.dflt) = firstTrueMask isOriginAnchor anchors ∧
      ((markDefaults anchors).map (fun a => a.dflt)).count true ≤ 1 := by
  have hmask : ∀ (l : List PinAnchor), (∀ a ∈ l, a.dflt = false) →
      (markDefaultsGo false l).map (fun a => a.dflt) = firstTrueMask isOriginAnchor l := by
    intro l
    induction l with
    | nil => intro _; rfl
    | cons a rest ih =>
      intro hl
      have hpv : isOriginAnchor a = are_two_points_close ⟨0, 0⟩ (a.point.getD ⟨0, 0⟩) := rfl
      rw [markDefaultsGo, firstTrueMask]
      by_cases hp : isOriginAnchor a
      · rw [hpv] at hp
        simp only [List.map_cons, Bool.not_false, Bool.true_and, hp,
          hl a (List.mem_cons_self _ _), Bool.or_false, Bool.true_or, Bool.false_or]
        rw [markDefaultsGo_true_defaults fun f hf => hl f (List.mem_cons_of_mem _ hf),
          if_pos (hpv.trans hp)]
      · rw [hpv, Bool.not_eq_true] at hp
        simp only [List.map_cons, Bool.not_false, Bool.true_and, hp,
          hl a (List.mem_cons_self _ _), Bool.or_false, Bool.false_or]
        rw [ih fun f hf => hl f (List.mem_cons_of_mem _ hf),
          if_neg (by rw [hpv, hp]; exact Bool.false_ne_true)]
  refine ⟨hmask anchors h, ?_⟩
  rw [markDefaults, hmask anchors h]
  exact firstTrueMask_count_le_one _ _

/-- The anchors of the C6 witness: one anchor away from the origin, one at
the origin, one never assigned a point. -/
def witnessAnchors : List PinAnchor :=
  [⟨"A", some ⟨5, 0⟩, false⟩, ⟨"B", some ⟨0, 0⟩, false⟩, ⟨"center", none, false⟩]

/-- First fragment of the spec's assembler-grouping example (identity A). -/
def fragA1 : Fragment :=
  { id := "node_000_a_o1", typ := "node", display := "compA", tikz := "A",
    group := "g", shape := "", refX := 0, refY := 0, viewBox := "0 0 10 10",
    optionsBlock := [⟨"o1", none, true⟩], pins := ["p1"], textpos := none }

/-- Second fragment of the example (identity B). -/
def fragB : Fragment :=
  { id := "node_001_b", typ := "node", display := "compB", tikz := "B",
    group := "g", shape := "", refX := 2, refY := 0, viewBox := "0 0 4 4",
    optionsBlock := [], pins := [], textpos := some "t" }

/-- Third fragment of the example (identity A again, another variant). -/
def fragA2 : Fragment :=
  { id := "node_000_a_o2", typ := "node", display := "compA", tikz := "A",
    group := "g", shape := "", refX := 1, refY := 3, viewBox := "0 0 10 10",
    optionsBlock := [⟨"o2", none, true⟩], pins := ["p1", "p2"], textpos := none }

/-- C7: the assembler groups fragments by `tikz` identity preserving
first-seen group order, building each component record with `mkComponent`
from the group's fragments in original relative order — so the shared
attributes come from the group's first fragment and the variants keep the
fragments' input order; in particular identities A, B, A yield exactly two
records, the A record holding the two A-variants in input order. -/
theorem combine_SVGs_groups_by_identity :
    (∀ frags : List Fragment,
        combine_SVGs_to_symbol frags
          = (firstSeenKeys frags).filterMap
              fun k => mkComponent (frags.filter fun f => f.tikz = k)) ∧
      (combine_SVGs_to_symbol [fragA1, fragB, fragA2]).map (fun c => c.tikz)
          = ["A", "B"] ∧
      (combine_SVGs_to_symbol [fragA1, fragB, fragA2]).map (fun c => c.variants)
          = [[variantOf fragA1, variantOf fragA2], [variantOf fragB]] := by
  refine ⟨?_, ?_, ?_⟩
  · intro frags
    rw [combine_SVGs_to_symbol, clusterByTikz_spec, List.filterMap_map]
    rfl
  · rfl
  · rfl

/-- C6 witness: the theorem applied to the concrete three-anchor list. -/
theorem markDefaults_marks_first_origin_witness :
    (∀ a ∈ witnessAnchors, a.dflt = false) ∧
      ((markDefaults witnessAnchors).map (fun a => a.dflt)
          = firstTrueMask isOriginAnchor witnessAnchors ∧
        ((markDefaults witnessAnchors).map (fun a => a.dflt)).count true ≤ 1) :=
  ⟨by intro a ha; fin_cases ha <;> rfl,
    markDefaults_marks_first_origin witnessAnchors (by intro a ha; fin_cases ha <;> rfl)⟩

end SymbolConvert
